import Mathlib

/-!
Verification of the bounded-concurrency repository-operation engine of the
`repos` CLI (source files `src/lib/repos.ts` and `src/lib/git.ts`).

The TypeScript code talks to git through subprocesses.  We embed it shallowly:
every subprocess invocation becomes a field of an explicit environment record
carrying the outcome that invocation would have produced (`none` models a
thrown shell error, which Bun's `$` raises for a non-zero exit status unless
`.nothrow()` is used; `ShellOutcome` models a `.nothrow()` call that may still
throw, e.g. the timeout race).  All functions below are direct transcriptions
of the TypeScript source; JavaScript string primitives (`split`, `trim`,
`includes`, `toLowerCase`, `parseInt`) are re-implemented over `List Char`
so that every definition is executable and kernel-reducible.

The worker pool `runParallel` is embedded as a small-step transition system
(`PoolStep`): JavaScript's single-threaded event loop runs each worker
synchronously between `await` points, so a run is an interleaving of atomic
segments.  Each constructor of `PoolStep` is one such segment of the
`runNext` loop body.
-/

/-! ## JavaScript string primitives -/

/-- Character-level model of JavaScript `String.prototype.split` with a
one-character separator. -/
def splitOnChar (sep : Char) : List Char → List (List Char)
  | [] => [[]]
  | c :: rest =>
    match splitOnChar sep rest with
    | [] => [[]]
    | l :: ls => if c = sep then [] :: l :: ls else (c :: l) :: ls

/-- Whitespace characters relevant to the strings handled by the engine
(JavaScript `trim` strips more code points, but git output only contains
these). -/
def isJsWs (c : Char) : Bool :=
  c = ' ' || c = '\n' || c = '\t' || c = '\r'

/-- Model of JavaScript `String.prototype.trim`. -/
def jsTrim (s : String) : String :=
  String.mk (((s.data.dropWhile isJsWs).reverse.dropWhile isJsWs).reverse)

/-- `pat` occurs as a contiguous run inside `cs`. -/
def charsContain (cs pat : List Char) : Bool :=
  match cs with
  | [] => pat.isEmpty
  | _ :: rest => List.isPrefixOf pat cs || charsContain rest pat

/-- Model of JavaScript `String.prototype.includes`. -/
def strContains (s pat : String) : Bool :=
  charsContain s.data pat.data

/-- ASCII lower-casing, the fragment of `toLowerCase` exercised by the
error classifiers. -/
def charToLower (c : Char) : Char :=
  if 'A' ≤ c ∧ c ≤ 'Z' then Char.ofNat (c.toNat + 32) else c

/-- Model of JavaScript `String.prototype.toLowerCase`. -/
def jsToLower (s : String) : String :=
  String.mk (s.data.map charToLower)

/-- Numeric value of a digit run. -/
def digitsToNat (ds : List Char) : Nat :=
  ds.foldl (fun acc c => acc * 10 + (c.toNat - '0'.toNat)) 0

/-- Model of JavaScript `parseInt(s) || 0` on an already-trimmed string:
an optional sign followed by a leading digit run; anything unparsable
(`NaN`) collapses to `0`. -/
def parseIntOrZero (s : String) : Int :=
  match s.data with
  | '-' :: rest =>
    let ds := rest.takeWhile Char.isDigit
    if ds.isEmpty then 0 else -(digitsToNat ds : Int)
  | '+' :: rest =>
    let ds := rest.takeWhile Char.isDigit
    if ds.isEmpty then 0 else (digitsToNat ds : Int)
  | cs =>
    let ds := cs.takeWhile Char.isDigit
    if ds.isEmpty then 0 else (digitsToNat ds : Int)

/-- `repoPath.split("/").pop() || repoPath` — the display name of a
repository handle (`git.ts`, repeated in every driver). -/
def lastSegment (p : String) : String :=
  match (splitOnChar '/' p.data).getLast? with
  | some s => if s.isEmpty then p else String.mk s
  | none => p

/-! ## Repository state prober (`getRepoStatus`, `getCurrentBranch`) -/

/-- The four change counters accumulated over porcelain status lines. -/
structure ChangeCounts where
  modified : Nat
  staged : Nat
  untracked : Nat
  deleted : Nat
deriving Repr, DecidableEq

/-- One iteration of the porcelain loop of `getRepoStatus`:
`line[0]` is the index (staged) column, `line[1]` the worktree column.
Lines reaching this step always have length ≥ 2 (the filter in
`getRepoStatus`); shorter lists are left untouched. -/
def porcelainStep (c : ChangeCounts) (line : List Char) : ChangeCounts :=
  match line with
  | c0 :: c1 :: _ =>
    let c := if c0 ≠ ' ' ∧ c0 ≠ '?' then { c with staged := c.staged + 1 } else c
    let c :=
      if c1 = 'M' then { c with modified := c.modified + 1 }
      else if c1 = 'D' then { c with deleted := c.deleted + 1 }
      else c
    if c0 = '?' then { c with untracked := c.untracked + 1 } else c
  | _ => c

/-- The porcelain-parsing fragment of `getRepoStatus`: split on newlines
without trimming (leading spaces are significant), keep lines of length ≥ 2,
accumulate the counters. -/
def parsePorcelain (text : String) : ChangeCounts :=
  ((splitOnChar '\n' text.data).filter (fun l => 2 ≤ l.length)).foldl
    porcelainStep ⟨0, 0, 0, 0⟩

/-- Outcomes of the git subprocess invocations performed by the prober.
`none` models a thrown shell error (Bun's `$ ... .quiet()` without
`.nothrow()` throws on a non-zero exit, and spawning can fail); `some`
carries the captured stdout text.  `upstreamQuery` also carries the exit
code because the source inspects it. -/
structure GitEnv where
  /-- `git branch --show-current` -/
  branchQuery : Option String
  /-- `git status --porcelain` -/
  statusQuery : Option String
  /-- `git rev-parse --abbrev-ref --symbolic-full-name @{u}` as (exitCode, stdout) -/
  upstreamQuery : Option (Nat × String)
  /-- `git rev-list --count HEAD..<upstream>` — commits reachable from the
  upstream but not from HEAD, the source of `behind` -/
  countHeadToUpstream : Option String
  /-- `git rev-list --count <upstream>..HEAD` — commits reachable from HEAD
  but not from the upstream, the source of `ahead` -/
  countUpstreamToHead : Option String
deriving Repr, DecidableEq

/-- `getCurrentBranch`: trimmed stdout of the branch query, with the
`"detached"` sentinel on a thrown error or empty output. -/
def getCurrentBranch (env : GitEnv) : String :=
  match env.branchQuery with
  | none => "detached"
  | some out =>
    let branch := jsTrim out
    if branch = "" then "detached" else branch

/-- The ahead/behind/upstream triple of `getRepoStatus`.  The two count
queries run inside one `try` block: a thrown first query leaves both
counters at 0, a thrown second query keeps the already-assigned `behind`. -/
def upstreamSync (env : GitEnv) : Int × Int × Bool :=
  match env.upstreamQuery with
  | none => (0, 0, false)
  | some (exitCode, _) =>
    if exitCode = 0 then
      match env.countHeadToUpstream with
      | none => (0, 0, true)
      | some t1 =>
        let behind := parseIntOrZero (jsTrim t1)
        match env.countUpstreamToHead with
        | none => (0, behind, true)
        | some t2 => (parseIntOrZero (jsTrim t2), behind, true)
    else (0, 0, false)

/-- The structured status record produced by the prober. -/
structure RepoStatus where
  name : String
  path : String
  branch : String
  modified : Nat
  staged : Nat
  untracked : Nat
  deleted : Nat
  ahead : Int
  behind : Int
  isClean : Bool
  hasUpstream : Bool
deriving Repr, DecidableEq

/-- `getRepoStatus`: each probing step is independently best-effort; a
thrown query degrades its fields to zero values instead of failing the
whole probe. -/
def getRepoStatus (env : GitEnv) (repoPath : String) : RepoStatus :=
  let name := lastSegment repoPath
  let branch := getCurrentBranch env
  let counts :=
    match env.statusQuery with
    | some text => parsePorcelain text
    | none => ⟨0, 0, 0, 0⟩
  let sync := upstreamSync env
  { name := name
    path := repoPath
    branch := branch
    modified := counts.modified
    staged := counts.staged
    untracked := counts.untracked
    deleted := counts.deleted
    ahead := sync.1
    behind := sync.2.1
    isClean := counts.modified == 0 && counts.staged == 0 &&
      counts.untracked == 0 && counts.deleted == 0
    hasUpstream := sync.2.2 }

/-! ## Outcome classifier and operation drivers -/

/-- Result record returned by every mutating driver (`RepoOperationResult`
in `types.ts`; `message` is the outcome kind). -/
structure RepoOperationResult where
  name : String
  success : Bool
  message : String
  details : Option String := none
  error : Option String := none
deriving Repr, DecidableEq

/-- Outcome of a `.nothrow()`-wrapped subprocess raced against the timeout:
either an exit record, or a thrown error carrying its message text
(`gitTimeout` marks a `GitTimeoutError` instance from `runWithTimeout`). -/
inductive ShellOutcome where
  | exited (exitCode : Nat) (stdout stderr : String)
  | threw (message : String) (gitTimeout : Bool)
deriving Repr, DecidableEq

/-- `isTimeoutError`: a `GitTimeoutError` instance or any error whose
lower-cased message contains "timed out". -/
def isTimeoutMsg (msg : String) (gitTimeout : Bool) : Bool :=
  gitTimeout || strContains (jsToLower msg) "timed out"

/-- `isConnectionError`: the fixed set of network-failure substrings matched
against the lower-cased thrown-error message. -/
def isConnectionMsg (msg : String) : Bool :=
  let m := jsToLower msg
  strContains m "could not resolve host" ||
  strContains m "connection refused" ||
  strContains m "network is unreachable" ||
  strContains m "no route to host" ||
  strContains m "unable to access"

/-- `formatNetworkError`: timeout classification has priority, then the
generic connection message, otherwise the raw message is passed through. -/
def formatNetworkError (msg : String) (gitTimeout : Bool) (operation : String) : String :=
  if isTimeoutMsg msg gitTimeout then operation ++ " " ++ msg
  else if isConnectionMsg msg then operation ++ " failed: connection error"
  else msg

/-- The digit-run capture of `output.match(/(\d+) file/)`: the first digit
run whose end is followed by " file".  At any later start position inside
the same run the regex fails identically, so scanning one character at a
time is equivalent. -/
def findFileCount : List Char → Option (List Char)
  | [] => none
  | c :: rest =>
    let ds := (c :: rest).takeWhile Char.isDigit
    if ¬ds.isEmpty ∧ List.isPrefixOf " file".data ((c :: rest).drop ds.length)
    then some ds
    else findFileCount rest

/-- `fileMatch ? fileMatch[1] : "some"` in `pullRepo`. -/
def pullFileCount (s : String) : String :=
  match findFileCount s.data with
  | some ds => String.mk ds
  | none => "some"

/-- `pullRepo`.  Besides the outcome record we return whether the
`git pull` subprocess was actually launched, so that the precondition
short-circuits are observable.  `pullExec` is the outcome `git pull`
would produce if launched. -/
def pullRepo (env : GitEnv) (pullExec : ShellOutcome) (repoPath : String) :
    RepoOperationResult × Bool :=
  let name := lastSegment repoPath
  let status := getRepoStatus env repoPath
  if status.modified > 0 ∨ status.staged > 0 then
    ({ name := name, success := false, message := "skipped",
       error := some "Has uncommitted changes" }, false)
  else if status.hasUpstream = false then
    ({ name := name, success := false, message := "skipped",
       error := some "No upstream configured" }, false)
  else
    match pullExec with
    | .threw msg gto =>
      ({ name := name, success := false, message := "error",
         error := some (formatNetworkError msg gto "Pull") }, true)
    | .exited exitCode stdout _ =>
      let output := stdout
      if exitCode ≠ 0 then
        ({ name := name, success := false, message := "error",
           error := some (if output = "" then "Pull failed" else output) }, true)
      else if strContains output "Already up to date" then
        ({ name := name, success := true, message := "up-to-date" }, true)
      else
        ({ name := name, success := true, message := "updated",
           details := some (pullFileCount output ++ " file(s) changed") }, true)

/-- The tail of `cleanRepo` after both subprocess phases. -/
def cleanRepoFinish (name : String) (filesReverted filesRemoved : Nat) :
    RepoOperationResult :=
  if filesReverted = 0 ∧ filesRemoved = 0 then
    { name := name, success := true, message := "already clean" }
  else
    { name := name, success := true, message := "cleaned",
      details := some (String.intercalate ", "
        ((if filesReverted > 0 then [toString filesReverted ++ " reverted"] else []) ++
         (if filesRemoved > 0 then [toString filesRemoved ++ " removed"] else [])) ) }

/-- The `git clean -fd` phase of `cleanRepo`. -/
def cleanRepoUntrackedPhase (name : String) (status : RepoStatus)
    (cleanExec : ShellOutcome) (includeUntracked : Bool)
    (filesReverted : Nat) : RepoOperationResult :=
  if includeUntracked = true ∧ status.untracked > 0 then
    match cleanExec with
    | .threw msg _ =>
      { name := name, success := false, message := "error", error := some msg }
    | .exited exitCode stdout stderr =>
      if exitCode ≠ 0 then
        let errorOutput := if jsTrim stderr = "" then jsTrim stdout else jsTrim stderr
        { name := name, success := false, message := "error",
          error := some (if errorOutput = "" then "Failed to clean untracked files"
                         else errorOutput) }
      else cleanRepoFinish name filesReverted status.untracked
  else cleanRepoFinish name filesReverted 0

/-- `cleanRepo`: `git reset --hard HEAD` when tracked changes exist, then
optionally `git clean -fd` for untracked files. -/
def cleanRepo (env : GitEnv) (resetExec cleanExec : ShellOutcome)
    (includeUntracked : Bool) (repoPath : String) : RepoOperationResult :=
  let name := lastSegment repoPath
  let status := getRepoStatus env repoPath
  let totalChanges := status.modified + status.staged + status.deleted
  if totalChanges > 0 then
    match resetExec with
    | .threw msg _ =>
      { name := name, success := false, message := "error", error := some msg }
    | .exited exitCode stdout stderr =>
      if exitCode ≠ 0 then
        let errorOutput := if jsTrim stderr = "" then jsTrim stdout else jsTrim stderr
        { name := name, success := false, message := "error",
          error := some (if errorOutput = "" then "Failed to reset changes"
                         else errorOutput) }
      else cleanRepoUntrackedPhase name status cleanExec includeUntracked totalChanges
  else cleanRepoUntrackedPhase name status cleanExec includeUntracked 0

/-- `cloneRepo`: the argument vector (shallow depth, single-branch) does not
influence the outcome classification, so only the shallow flag is kept. -/
def cloneRepo (execOutcome : ShellOutcome) (targetPath : String)
    (shallow : Bool) : RepoOperationResult :=
  let name := lastSegment targetPath
  match execOutcome with
  | .threw msg gto =>
    { name := name, success := false, message := "error",
      error := some (formatNetworkError msg gto "Clone") }
  | .exited exitCode stdout stderr =>
    if exitCode ≠ 0 then
      let output := if stdout = "" then stderr else stdout
      { name := name, success := false, message := "error",
        error := some (if output = "" then "Clone failed" else output) }
    else
      { name := name, success := true, message := "cloned",
        details := if shallow then some "shallow" else none }

/-- `fetchRepo`. -/
def fetchRepo (execOutcome : ShellOutcome) (repoPath : String) :
    RepoOperationResult :=
  let name := lastSegment repoPath
  match execOutcome with
  | .threw msg gto =>
    { name := name, success := false, message := "error",
      error := some (formatNetworkError msg gto "Fetch") }
  | .exited exitCode stdout stderr =>
    if exitCode ≠ 0 then
      let output := if stdout = "" then stderr else stdout
      { name := name, success := false, message := "error",
        error := some (if output = "" then "Fetch failed" else output) }
    else
      { name := name, success := true, message := "fetched" }

/-- `checkoutBranch`: domain-specific textual signals are inspected on a
non-zero exit before falling back to a generic error. -/
def checkoutBranch (execOutcome : ShellOutcome) (repoPath branch : String)
    (create : Bool) : RepoOperationResult :=
  let name := lastSegment repoPath
  match execOutcome with
  | .threw msg _ =>
    { name := name, success := false, message := "error", error := some msg }
  | .exited exitCode stdout stderr =>
    if exitCode ≠ 0 then
      let output := if stdout = "" then stderr else stdout
      if strContains output "did not match any" || strContains output "pathspec" then
        { name := name, success := false, message := "not found",
          error := some ("Branch \x27" ++ branch ++ "\x27 not found") }
      else if strContains output "already exists" then
        { name := name, success := false, message := "exists",
          error := some ("Branch \x27" ++ branch ++ "\x27 already exists") }
      else
        { name := name, success := false, message := "error",
          error := some (if output = "" then "Checkout failed" else output) }
    else
      { name := name, success := true,
        message := if create then "created" else "switched",
        details := some ("→ " ++ branch) }

/-- The data-model invariant of `OperationOutcome`: non-terminal-success
kinds imply `success = false`, and `error` is populated only on failure. -/
def outcomeOk (r : RepoOperationResult) : Prop :=
  ((r.message = "skipped" ∨ r.message = "not found" ∨ r.message = "exists" ∨
    r.message = "error") → r.success = false) ∧
  (r.error ≠ none → r.success = false)

/-! ## Bounded worker pool (`runParallel`)

`runParallel` starts `min(concurrency, items.length)` copies of the async
closure `runNext`; JavaScript's event loop interleaves them, each running
synchronously between `await` points.  The loop body of `runNext` has
exactly two atomic segments:

* from the loop head through calling `operation(item, currentIndex)`
  (the `shouldCancel` poll and the `index++` claim are inside it), and
* from the resumption after `await` through `onProgress` (writing
  `results[currentIndex]` and incrementing `completed`).

`PoolStep` has one constructor per way a segment can run: the loop
condition fails (`exitDone`), the poll returns true (`pollCancel`),
the poll returns false and an index is claimed (`claimNext`), and an
in-flight operation resumes (`finishItem`).  The cancel predicate is an
arbitrary relation `pollRel` between the pool state and the polled value,
so both external nondeterministic predicates and deterministic policies
are covered.  The sparse `results` array is a fixed-length list of
`Option`, absent entries being `none`; claims, polls and progress-callback
invocations are logged in the state so that temporal claims become
statements about the logs. -/

/-- The phase a worker's control flow is in: at the loop head, suspended on
`await operation(items[idx], idx)`, or returned. -/
inductive WorkerState where
  | ready : WorkerState
  | running (idx : Nat) : WorkerState
  | done : WorkerState
deriving Repr, DecidableEq

/-- The indices currently being operated on by suspended workers. -/
def runningIdxs (ws : List WorkerState) : List Nat :=
  ws.filterMap (fun w => match w with | .running i => some i | _ => none)

/-- Ephemeral per-invocation scheduler state (`SchedulerRun`): the shared
cursor, the order-preserving results array, the completion counter and the
cancelled flag, together with logs of all claims, polls and progress
invocations and the control state of every worker. -/
structure PoolState (α β : Type) where
  cursor : Nat
  results : List (Option β)
  completed : Nat
  cancelled : Bool
  claims : List (α × Nat)
  polls : List (Nat × Bool)
  progressLog : List (Nat × Nat)
  workers : List WorkerState
deriving Repr, DecidableEq

/-- The state at the moment all workers have been started but none has run:
`min(concurrency, items.length)` workers at the loop head. -/
def initState {α β : Type} (items : List α) (concurrency : Nat) : PoolState α β :=
  { cursor := 0
    results := List.replicate items.length none
    completed := 0
    cancelled := false
    claims := []
    polls := []
    progressLog := []
    workers := List.replicate (min concurrency items.length) WorkerState.ready }

/-- One atomic segment of one worker of `runParallel`. -/
inductive PoolStep (items : List α) (op : α → Nat → β)
    (pollRel : PoolState α β → Bool → Prop) :
    PoolState α β → PoolState α β → Prop where
  | exitDone (s : PoolState α β) (pre post : List WorkerState)
      (hw : s.workers = pre ++ WorkerState.ready :: post)
      (hcur : items.length ≤ s.cursor) :
      PoolStep items op pollRel s
        { s with workers := pre ++ WorkerState.done :: post }
  | pollCancel (s : PoolState α β) (pre post : List WorkerState)
      (hw : s.workers = pre ++ WorkerState.ready :: post)
      (hcur : s.cursor < items.length)
      (hpoll : pollRel s true) :
      PoolStep items op pollRel s
        { s with cancelled := true
                 polls := s.polls ++ [(s.cursor, true)]
                 workers := pre ++ WorkerState.done :: post }
  | claimNext (s : PoolState α β) (pre post : List WorkerState) (a : α)
      (hw : s.workers = pre ++ WorkerState.ready :: post)
      (hcur : s.cursor < items.length)
      (hpoll : pollRel s false)
      (ha : items.get? s.cursor = some a) :
      PoolStep items op pollRel s
        { s with cursor := s.cursor + 1
                 polls := s.polls ++ [(s.cursor, false)]
                 claims := s.claims ++ [(a, s.cursor)]
                 workers := pre ++ WorkerState.running s.cursor :: post }
  | finishItem (s : PoolState α β) (pre post : List WorkerState) (i : Nat) (a : α)
      (hw : s.workers = pre ++ WorkerState.running i :: post)
      (ha : items.get? i = some a) :
      PoolStep items op pollRel s
        { s with results := s.results.set i (some (op a i))
                 completed := s.completed + 1
                 progressLog := s.progressLog ++ [(s.completed + 1, items.length)]
                 workers := pre ++ WorkerState.ready :: post }

/-- `Promise.all(workers)` has resolved: every worker has returned. -/
def AllDone {α β : Type} (s : PoolState α β) : Prop :=
  ∀ w ∈ s.workers, w = WorkerState.done

/-- A cancel predicate that never fires. -/
def noCancel {α β : Type} : PoolState α β → Bool → Prop :=
  fun _ b => b = false

/-- The deterministic cancel predicate of the K-item cancellation scenario:
it returns true exactly once at least `K` items have been claimed. -/
def cancelAfter {α β : Type} (K : Nat) : PoolState α β → Bool → Prop :=
  fun s b => b = decide (K ≤ s.cursor)

/-- The state invariant of one `runParallel` invocation with `nw` workers.
`results` is pointwise determined by the cursor and the in-flight set,
the claim log is exactly the cursor-ordered prefix of indices paired with
their items, the progress log is the increasing enumeration of completion
counts, in-flight indices are distinct and claimed, and the cancelled flag
mirrors the poll log. -/
structure PoolInv (items : List α) (op : α → Nat → β) (nw : Nat)
    (s : PoolState α β) : Prop where
  results_eq : s.results = (List.range items.length).map (fun i =>
    if i < s.cursor ∧ i ∉ runningIdxs s.workers
    then (items.get? i).map (fun a => op a i) else none)
  cursor_le : s.cursor ≤ items.length
  claims_snd : s.claims.map Prod.snd = List.range s.cursor
  claims_fst : ∀ p ∈ s.claims, items.get? p.2 = some p.1
  progress_eq : s.progressLog =
    (List.range s.completed).map (fun j => (j + 1, items.length))
  running_nodup : (runningIdxs s.workers).Nodup
  running_lt : ∀ i ∈ runningIdxs s.workers, i < s.cursor
  completed_eq : s.completed + (runningIdxs s.workers).length = s.cursor
  cancelled_iff : s.cancelled = true ↔ ∃ p ∈ s.polls, p.2 = true
  polls_lt : ∀ p ∈ s.polls, p.1 < items.length
  workers_len : s.workers.length = nw
  done_reason : WorkerState.done ∈ s.workers →
    s.cancelled = true ∨ items.length ≤ s.cursor

/-- The strengthening of the invariant available when a single worker runs
the whole pool under the `cancelAfter K` policy with `K < items.length`:
the lone worker walks `ready → running i → ready` up to cursor `K` and then
stops through `pollCancel`. -/
def SeqInv {α β : Type} (K : Nat) (s : PoolState α β) : Prop :=
  (s.workers = [WorkerState.ready] ∧ s.cursor ≤ K ∧
    s.completed = s.cursor ∧ s.cancelled = false) ∨
  (∃ i, s.workers = [WorkerState.running i] ∧ s.cursor = i + 1 ∧
    s.cursor ≤ K ∧ s.completed = i ∧ s.cancelled = false) ∨
  (s.workers = [WorkerState.done] ∧ s.cursor = K ∧
    s.completed = K ∧ s.cancelled = true)

/-! ## Concrete runs used by the witnesses -/

/-- The operation of the witness runs. -/
def wOp : Nat → Nat → Nat := fun a i => a + i

/-- Witness run: two items, concurrency 2, no cancellation. -/
def w0 : PoolState Nat Nat := initState [10, 20] 2

/-- After worker 0 claims index 0. -/
def w1 : PoolState Nat Nat :=
  { w0 with cursor := 1, claims := [(10, 0)], polls := [(0, false)],
            workers := [WorkerState.running 0, WorkerState.ready] }

/-- After worker 1 claims index 1. -/
def w2 : PoolState Nat Nat :=
  { w1 with cursor := 2, claims := [(10, 0), (20, 1)],
            polls := [(0, false), (1, false)],
            workers := [WorkerState.running 0, WorkerState.running 1] }

/-- After worker 0 completes item 0. -/
def w3 : PoolState Nat Nat :=
  { w2 with results := [some 10, none], completed := 1,
            progressLog := [(1, 2)],
            workers := [WorkerState.ready, WorkerState.running 1] }

/-- After worker 1 completes item 1. -/
def w4 : PoolState Nat Nat :=
  { w3 with results := [some 10, some 21], completed := 2,
            progressLog := [(1, 2), (2, 2)],
            workers := [WorkerState.ready, WorkerState.ready] }

/-- After worker 0 observes the exhausted cursor. -/
def w5 : PoolState Nat Nat :=
  { w4 with workers := [WorkerState.done, WorkerState.ready] }

/-- After worker 1 observes the exhausted cursor: the terminal state. -/
def w6 : PoolState Nat Nat :=
  { w5 with workers := [WorkerState.done, WorkerState.done] }

/-- Cancellation witness run: three items, concurrency 1, `cancelAfter 1`. -/
def v0 : PoolState Nat Nat := initState [5, 6, 7] 1

/-- The worker claims index 0 (poll is false at cursor 0). -/
def v1 : PoolState Nat Nat :=
  { v0 with cursor := 1, claims := [(5, 0)], polls := [(0, false)],
            workers := [WorkerState.running 0] }

/-- The worker completes item 0. -/
def v2 : PoolState Nat Nat :=
  { v1 with results := [some 5, none, none], completed := 1,
            progressLog := [(1, 3)], workers := [WorkerState.ready] }

/-- The worker polls true at cursor 1 and stops: the terminal state. -/
def v3 : PoolState Nat Nat :=
  { v2 with cancelled := true, polls := [(0, false), (1, true)],
            workers := [WorkerState.done] }

/-! ## Concrete prober environments used by witnesses and counterexamples -/

/-- A repository with one worktree-deleted tracked file and an up-to-date
upstream: porcelain reports `" D file.txt"`, so `deleted = 1` while
`modified = staged = 0`. -/
def envDeletedOnly : GitEnv :=
  { branchQuery := some "main\n"
    statusQuery := some " D file.txt\n"
    upstreamQuery := some (0, "origin/main\n")
    countHeadToUpstream := some "0\n"
    countUpstreamToHead := some "0\n" }

/-- A dirty repository in detached-HEAD state: the branch query exits 0
with empty output while the porcelain query reports a modified file. -/
def envDirtyDetached : GitEnv :=
  { branchQuery := some ""
    statusQuery := some " M file.txt\n"
    upstreamQuery := none
    countHeadToUpstream := none
    countUpstreamToHead := none }

/-- A path that is not a git repository: every query throws. -/
def envNoRepo : GitEnv :=
  { branchQuery := none
    statusQuery := none
    upstreamQuery := none
    countHeadToUpstream := none
    countUpstreamToHead := none }

/-- A clean repository whose upstream is one commit ahead of HEAD. -/
def envBehindOne : GitEnv :=
  { branchQuery := some "main\n"
    statusQuery := some ""
    upstreamQuery := some (0, "origin/main\n")
    countHeadToUpstream := some "1\n"
    countUpstreamToHead := some "0\n" }

example : parsePorcelain " M file.txt" = ⟨1, 0, 0, 0⟩ := by decide
example : parsePorcelain "M  file.txt" = ⟨0, 1, 0, 0⟩ := by decide
example : parsePorcelain "?? file.txt" = ⟨0, 0, 1, 0⟩ := by decide
example : pullFileCount " 3 files changed" = "3" := by decide
example : lastSegment "/a/b/repo" = "repo" := by decide
example : lastSegment "/a/b/" = "/a/b/" := by decide
example : parseIntOrZero "12" = 12 := by decide
example : parseIntOrZero "x" = 0 := by decide
example : jsTrim "  ok\n" = "ok" := by decide
example : isConnectionMsg "fatal: Could not resolve host: x" = true := by decide

/-! ## List helper lemmas -/

theorem get?_map_range {γ : Type} (f : Nat → γ) (n j : Nat) :
    ((List.range n).map f).get? j = if j < n then some (f j) else none := by
  rcases Nat.lt_or_ge j n with h | h
  · rw [List.get?_map, List.get?_range h, if_pos h]
    rfl
  · rw [if_neg (Nat.not_lt.mpr h), List.get?_eq_none.mpr]
    simp [h]

theorem append_cons_eq_singleton {γ : Type} {pre post : List γ} {x y : γ}
    (h : pre ++ x :: post = [y]) : pre = [] ∧ x = y ∧ post = [] := by
  cases pre with
  | nil => simpa using h
  | cons p ps =>
    simp only [List.cons_append, List.cons.injEq] at h
    exact absurd h.2 (by simp)

@[simp]
theorem runningIdxs_nil : runningIdxs [] = [] := rfl

@[simp]
theorem runningIdxs_cons_ready (ws : List WorkerState) :
    runningIdxs (WorkerState.ready :: ws) = runningIdxs ws := by
  simp [runningIdxs, List.filterMap_cons]

@[simp]
theorem runningIdxs_cons_done (ws : List WorkerState) :
    runningIdxs (WorkerState.done :: ws) = runningIdxs ws := by
  simp [runningIdxs, List.filterMap_cons]

@[simp]
theorem runningIdxs_cons_running (i : Nat) (ws : List WorkerState) :
    runningIdxs (WorkerState.running i :: ws) = i :: runningIdxs ws := by
  simp [runningIdxs, List.filterMap_cons]

@[simp]
theorem runningIdxs_append (ws ws' : List WorkerState) :
    runningIdxs (ws ++ ws') = runningIdxs ws ++ runningIdxs ws' :=
  List.filterMap_append ws ws' _

theorem runningIdxs_replicate_ready (k : Nat) :
    runningIdxs (List.replicate k WorkerState.ready) = [] := by
  induction k with
  | zero => rfl
  | succ k ih => simpa [List.replicate_succ] using ih

theorem runningIdxs_of_allDone {ws : List WorkerState}
    (h : ∀ w ∈ ws, w = WorkerState.done) : runningIdxs ws = [] := by
  induction ws with
  | nil => rfl
  | cons w ws ih =>
    have hw := h w (by simp)
    subst hw
    rw [runningIdxs_cons_done]
    exact ih (fun w hw => h w (by simp [hw]))

/-! ## The pool invariant holds initially and is preserved -/

theorem poolInv_init {α β : Type} (items : List α) (op : α → Nat → β) (c : Nat) :
    PoolInv items op (min c items.length) (initState items c) := by
  refine ⟨?_, ?_, ?_, ?_, ?_, ?_, ?_, ?_, ?_, ?_, ?_, ?_⟩
  · show List.replicate items.length none = _
    have : (fun i => if i < (initState (β := β) items c).cursor ∧
        i ∉ runningIdxs (initState (β := β) items c).workers
        then (items.get? i).map (fun a => op a i) else none) =
        Function.const Nat (none : Option β) := by
      funext i
      simp [initState]
    rw [this, List.map_const, List.length_range]
  · exact Nat.zero_le _
  · simp [initState]
  · simp [initState]
  · simp [initState]
  · show (runningIdxs (List.replicate _ WorkerState.ready)).Nodup
    rw [runningIdxs_replicate_ready]
    exact List.nodup_nil
  · show ∀ i ∈ runningIdxs (List.replicate _ WorkerState.ready), _
    rw [runningIdxs_replicate_ready]
    intro i hi
    exact absurd hi (by simp)
  · show 0 + (runningIdxs (List.replicate _ WorkerState.ready)).length = 0
    rw [runningIdxs_replicate_ready]
    rfl
  · simp [initState]
  · simp [initState]
  · simp [initState]
  · intro hdone
    exact absurd (List.eq_of_mem_replicate hdone) (by simp)

theorem length_append_cons {γ : Type} (pre post : List γ) (x y : γ) :
    (pre ++ x :: post).length = (pre ++ y :: post).length := by
  simp

theorem poolInv_step {α β : Type} {items : List α} {op : α → Nat → β}
    {pollRel : PoolState α β → Bool → Prop} {nw : Nat} {s s' : PoolState α β}
    (hstep : PoolStep items op pollRel s s') (hinv : PoolInv items op nw s) :
    PoolInv items op nw s' := by
  obtain ⟨hres, hcle, hcsnd, hcfst, hprog, hnodup, hrlt, hcomp, hciff, hplt,
    hwlen, hdone⟩ := hinv
  cases hstep with
  | exitDone pre post hw hcur =>
    have hrNew : runningIdxs (pre ++ WorkerState.done :: post) =
        runningIdxs s.workers := by
      rw [hw]; simp
    refine ⟨?_, hcle, hcsnd, hcfst, hprog, ?_, ?_, ?_, hciff, hplt, ?_, ?_⟩
    · show s.results = _
      simp only [hrNew]
      exact hres
    · show (runningIdxs (pre ++ WorkerState.done :: post)).Nodup
      rw [hrNew]; exact hnodup
    · show ∀ i ∈ runningIdxs (pre ++ WorkerState.done :: post), _
      rw [hrNew]; exact hrlt
    · show s.completed + (runningIdxs (pre ++ WorkerState.done :: post)).length = _
      rw [hrNew]; exact hcomp
    · show (pre ++ WorkerState.done :: post).length = nw
      rw [length_append_cons pre post WorkerState.done WorkerState.ready, ← hw]
      exact hwlen
    · intro _
      exact Or.inr hcur
  | pollCancel pre post hw hcur hpoll =>
    have hrNew : runningIdxs (pre ++ WorkerState.done :: post) =
        runningIdxs s.workers := by
      rw [hw]; simp
    refine ⟨?_, hcle, hcsnd, hcfst, hprog, ?_, ?_, ?_, ?_, ?_, ?_, ?_⟩
    · show s.results = _
      simp only [hrNew]
      exact hres
    · show (runningIdxs (pre ++ WorkerState.done :: post)).Nodup
      rw [hrNew]; exact hnodup
    · show ∀ i ∈ runningIdxs (pre ++ WorkerState.done :: post), _
      rw [hrNew]; exact hrlt
    · show s.completed + (runningIdxs (pre ++ WorkerState.done :: post)).length = _
      rw [hrNew]; exact hcomp
    · constructor
      · intro _
        exact ⟨(s.cursor, true), by simp, rfl⟩
      · intro _
        rfl
    · intro p hp
      rcases List.mem_append.mp hp with h | h
      · exact hplt p h
      · have : p = (s.cursor, true) := by simpa using h
        rw [this]
        exact hcur
    · show (pre ++ WorkerState.done :: post).length = nw
      rw [length_append_cons pre post WorkerState.done WorkerState.ready, ← hw]
      exact hwlen
    · intro _
      exact Or.inl rfl
  | claimNext pre post a hw hcur hpoll ha =>
    have hrOld : runningIdxs s.workers =
        runningIdxs pre ++ runningIdxs post := by
      rw [hw]; simp
    have hrNew : runningIdxs (pre ++ WorkerState.running s.cursor :: post) =
        runningIdxs pre ++ s.cursor :: runningIdxs post := by
      simp
    have hnotOld : s.cursor ∉ runningIdxs pre ++ runningIdxs post := by
      intro hmem
      rw [← hrOld] at hmem
      exact absurd (hrlt s.cursor hmem) (Nat.lt_irrefl _)
    refine ⟨?_, hcur, ?_, ?_, hprog, ?_, ?_, ?_, ?_, ?_, ?_, ?_⟩
    · show s.results = _
      rw [hres]
      apply List.map_congr_left
      intro i _
      simp only [hrNew]
      by_cases hic : i = s.cursor
      · subst hic
        rw [if_neg (by simp [Nat.lt_irrefl]), if_neg (by simp)]
      · refine if_congr ?_ rfl rfl
        rw [hrOld]
        simp only [List.mem_append, List.mem_cons]
        constructor
        · rintro ⟨hlt, hmem⟩
          refine ⟨Nat.lt_succ_of_lt hlt, ?_⟩
          rintro (h | h | h)
          · exact hmem (Or.inl h)
          · exact hic h
          · exact hmem (Or.inr h)
        · rintro ⟨hlt, hmem⟩
          refine ⟨?_, ?_⟩
          · rcases Nat.lt_succ_iff_lt_or_eq.mp hlt with h | h
            · exact h
            · exact absurd h hic
          · rintro (h | h)
            · exact hmem (Or.inl h)
            · exact hmem (Or.inr (Or.inr h))
    · show (s.claims ++ [(a, s.cursor)]).map Prod.snd = List.range (s.cursor + 1)
      rw [List.map_append, hcsnd, List.range_succ]
      rfl
    · intro p hp
      rcases List.mem_append.mp hp with h | h
      · exact hcfst p h
      · have : p = (a, s.cursor) := by simpa using h
        rw [this]
        exact ha
    · show (runningIdxs (pre ++ WorkerState.running s.cursor :: post)).Nodup
      rw [hrNew, List.nodup_middle, List.nodup_cons]
      rw [hrOld] at hnodup
      exact ⟨hnotOld, hnodup⟩
    · intro i hi
      rw [hrNew] at hi
      simp only [List.mem_append, List.mem_cons] at hi
      rcases hi with h | h | h
      · exact Nat.lt_succ_of_lt (hrlt i (by rw [hrOld]; exact List.mem_append.mpr (Or.inl h)))
      · rw [h]; exact Nat.lt_succ_self _
      · exact Nat.lt_succ_of_lt (hrlt i (by rw [hrOld]; exact List.mem_append.mpr (Or.inr h)))
    · show s.completed +
        (runningIdxs (pre ++ WorkerState.running s.cursor :: post)).length = s.cursor + 1
      rw [hrNew]
      rw [hrOld] at hcomp
      simp only [List.length_append, List.length_cons] at hcomp ⊢
      omega
    · rw [hciff]
      constructor
      · rintro ⟨p, hp, h2⟩
        exact ⟨p, List.mem_append.mpr (Or.inl hp), h2⟩
      · rintro ⟨p, hp, h2⟩
        rcases List.mem_append.mp hp with h | h
        · exact ⟨p, h, h2⟩
        · have : p = (s.cursor, false) := by simpa using h
          rw [this] at h2
          exact absurd h2 (by simp)
    · intro p hp
      rcases List.mem_append.mp hp with h | h
      · exact hplt p h
      · have : p = (s.cursor, false) := by simpa using h
        rw [this]
        exact hcur
    · show (pre ++ WorkerState.running s.cursor :: post).length = nw
      rw [length_append_cons pre post (WorkerState.running s.cursor) WorkerState.ready, ← hw]
      exact hwlen
    · intro hmem
      have : WorkerState.done ∈ s.workers := by
        rw [hw]
        simp only [List.mem_append, List.mem_cons] at hmem ⊢
        rcases hmem with h | h | h
        · exact Or.inl h
        · exact absurd h (by simp)
        · exact Or.inr (Or.inr h)
      rcases hdone this with h | h
      · exact Or.inl h
      · exact Or.inr (Nat.le_succ_of_le h)
  | finishItem pre post i a hw ha =>
    have hrOld : runningIdxs s.workers =
        runningIdxs pre ++ i :: runningIdxs post := by
      rw [hw]; simp
    have hrNew : runningIdxs (pre ++ WorkerState.ready :: post) =
        runningIdxs pre ++ runningIdxs post := by
      simp
    have hi_mem : i ∈ runningIdxs s.workers := by
      rw [hrOld]
      exact List.mem_append.mpr (Or.inr (by simp))
    have hi_lt : i < s.cursor := hrlt i hi_mem
    have hi_n : i < items.length := Nat.lt_of_lt_of_le hi_lt hcle
    have hmid := hnodup
    rw [hrOld, List.nodup_middle, List.nodup_cons] at hmid
    have hnotAB : i ∉ runningIdxs pre ++ runningIdxs post := hmid.1
    refine ⟨?_, hcle, hcsnd, hcfst, ?_, ?_, ?_, ?_, hciff, hplt, ?_, ?_⟩
    · show s.results.set i (some (op a i)) = _
      apply List.ext_get?
      intro j
      rw [List.get?_set, hres, get?_map_range, get?_map_range]
      simp only [hrNew]
      by_cases hij : i = j
      · subst hij
        rw [if_pos rfl, if_pos hi_n, if_pos hi_n]
        have hcond : (i < s.cursor ∧ i ∉ runningIdxs pre ++ runningIdxs post) := ⟨hi_lt, hnotAB⟩
        rw [if_pos hcond, ha]
        rfl
      · rw [if_neg hij]
        rcases Nat.lt_or_ge j items.length with hj | hj
        · rw [if_pos hj, if_pos hj]
          congr 1
          refine if_congr ?_ rfl rfl
          rw [hrOld]
          simp only [List.mem_append, List.mem_cons]
          constructor
          · rintro ⟨hlt, hmem⟩
            refine ⟨hlt, ?_⟩
            rintro (h | h)
            · exact hmem (Or.inl h)
            · exact hmem (Or.inr (Or.inr h))
          · rintro ⟨hlt, hmem⟩
            refine ⟨hlt, ?_⟩
            rintro (h | h | h)
            · exact hmem (Or.inl h)
            · exact hij h.symm
            · exact hmem (Or.inr h)
        · rw [if_neg (Nat.not_lt.mpr hj), if_neg (Nat.not_lt.mpr hj)]
    · show s.progressLog ++ [(s.completed + 1, items.length)] = _
      rw [hprog, List.range_succ, List.map_append]
      rfl
    · show (runningIdxs (pre ++ WorkerState.ready :: post)).Nodup
      rw [hrNew]
      exact hmid.2
    · intro j hj
      rw [hrNew] at hj
      apply hrlt
      rw [hrOld]
      simp only [List.mem_append, List.mem_cons] at hj ⊢
      rcases hj with h | h
      · exact Or.inl h
      · exact Or.inr (Or.inr h)
    · show s.completed + 1 + (runningIdxs (pre ++ WorkerState.ready :: post)).length = s.cursor
      rw [hrNew]
      rw [hrOld] at hcomp
      simp only [List.length_append, List.length_cons] at hcomp ⊢
      omega
    · show (pre ++ WorkerState.ready :: post).length = nw
      rw [length_append_cons pre post WorkerState.ready (WorkerState.running i), ← hw]
      exact hwlen
    · intro hmem
      apply hdone
      rw [hw]
      simp only [List.mem_append, List.mem_cons] at hmem ⊢
      rcases hmem with h | h | h
      · exact Or.inl h
      · exact absurd h (by simp)
      · exact Or.inr (Or.inr h)

theorem poolInv_reach {α β : Type} {items : List α} {op : α → Nat → β}
    {pollRel : PoolState α β → Bool → Prop} {c : Nat} {s : PoolState α β}
    (h : Relation.ReflTransGen (PoolStep items op pollRel) (initState items c) s) :
    PoolInv items op (min c items.length) s := by
  induction h with
  | refl => exact poolInv_init items op c
  | tail _ hstep ih => exact poolInv_step hstep ih

/-! ## The single-worker invariant of the cancellation scenario -/

theorem seqInv_step {α β : Type} {items : List α} {op : α → Nat → β} {K : Nat}
    {s s' : PoolState α β} (hK : K < items.length)
    (hstep : PoolStep items op (cancelAfter K) s s') (hinv : SeqInv K s) :
    SeqInv K s' := by
  cases hstep with
  | exitDone pre post hw hcur =>
    rcases hinv with ⟨hws, hcle, _, _⟩ | ⟨i, hws, _, hcle, _, _⟩ | ⟨hws, _, _, _⟩
    · exact absurd hcur (Nat.not_le.mpr (Nat.lt_of_le_of_lt hcle hK))
    · obtain ⟨_, hx, _⟩ := append_cons_eq_singleton (hw.symm.trans hws)
      exact absurd hx (by simp)
    · obtain ⟨_, hx, _⟩ := append_cons_eq_singleton (hw.symm.trans hws)
      exact absurd hx (by simp)
  | pollCancel pre post hw hcur hpoll =>
    rcases hinv with ⟨hws, hcle, hco, _⟩ | ⟨i, hws, _, _, _, _⟩ | ⟨hws, _, _, _⟩
    · have hsplit := append_cons_eq_singleton (hw.symm.trans hws)
      have hKc : K ≤ s.cursor := by
        have := of_decide_eq_true hpoll.symm
        exact this
      have hcK : s.cursor = K := Nat.le_antisymm hcle hKc
      refine Or.inr (Or.inr ?_)
      refine ⟨?_, hcK, hco.trans hcK, rfl⟩
      show pre ++ WorkerState.done :: post = [WorkerState.done]
      rw [hsplit.1, hsplit.2.2]
      rfl
    · obtain ⟨_, hx, _⟩ := append_cons_eq_singleton (hw.symm.trans hws)
      exact absurd hx (by simp)
    · obtain ⟨_, hx, _⟩ := append_cons_eq_singleton (hw.symm.trans hws)
      exact absurd hx (by simp)
  | claimNext pre post a hw hcur hpoll ha =>
    rcases hinv with ⟨hws, hcle, hco, hcan⟩ | ⟨i, hws, _, _, _, _⟩ | ⟨hws, _, _, _⟩
    · have hsplit := append_cons_eq_singleton (hw.symm.trans hws)
      have hcK : s.cursor < K := by
        have := of_decide_eq_false hpoll.symm
        exact Nat.lt_of_not_le this
      refine Or.inr (Or.inl ⟨s.cursor, ?_, rfl, hcK, hco, hcan⟩)
      show pre ++ WorkerState.running s.cursor :: post = [WorkerState.running s.cursor]
      rw [hsplit.1, hsplit.2.2]
      rfl
    · obtain ⟨_, hx, _⟩ := append_cons_eq_singleton (hw.symm.trans hws)
      exact absurd hx (by simp)
    · obtain ⟨_, hx, _⟩ := append_cons_eq_singleton (hw.symm.trans hws)
      exact absurd hx (by simp)
  | finishItem pre post i a hw ha =>
    rcases hinv with ⟨hws, _, _, _⟩ | ⟨j, hws, hc1, hcle, hco, hcan⟩ | ⟨hws, _, _, _⟩
    · obtain ⟨_, hx, _⟩ := append_cons_eq_singleton (hw.symm.trans hws)
      exact absurd hx (by simp)
    · have hsplit := append_cons_eq_singleton (hw.symm.trans hws)
      have hij : i = j := by
        have := hsplit.2.1
        simpa using this
      refine Or.inl ⟨?_, hcle, ?_, hcan⟩
      · show pre ++ WorkerState.ready :: post = [WorkerState.ready]
        rw [hsplit.1, hsplit.2.2]
        rfl
      · show s.completed + 1 = s.cursor
        rw [hco, hc1]
    · obtain ⟨_, hx, _⟩ := append_cons_eq_singleton (hw.symm.trans hws)
      exact absurd hx (by simp)

theorem seqInv_init {α β : Type} (items : List α) (K : Nat)
    (hK : K < items.length) : SeqInv K (initState (β := β) items 1) := by
  refine Or.inl ⟨?_, Nat.zero_le _, rfl, rfl⟩
  show List.replicate (min 1 items.length) WorkerState.ready = [WorkerState.ready]
  have : min 1 items.length = 1 := by omega
  rw [this]
  rfl

theorem seqInv_reach {α β : Type} {items : List α} {op : α → Nat → β} {K : Nat}
    {s : PoolState α β} (hK : K < items.length)
    (h : Relation.ReflTransGen (PoolStep items op (cancelAfter K))
      (initState items 1) s) : SeqInv K s := by
  induction h with
  | refl => exact seqInv_init items K hK
  | tail _ hstep ih => exact seqInv_step hK hstep ih

/-! ## The concrete runs are genuine executions of the model -/

theorem wReach : Relation.ReflTransGen (PoolStep [10, 20] wOp noCancel) w0 w6 := by
  have h01 : PoolStep [10, 20] wOp noCancel w0 w1 :=
    PoolStep.claimNext w0 [] [WorkerState.ready] 10 rfl (by decide) rfl rfl
  have h12 : PoolStep [10, 20] wOp noCancel w1 w2 :=
    PoolStep.claimNext w1 [WorkerState.running 0] [] 20 rfl (by decide) rfl rfl
  have h23 : PoolStep [10, 20] wOp noCancel w2 w3 :=
    PoolStep.finishItem w2 [] [WorkerState.running 1] 0 10 rfl rfl
  have h34 : PoolStep [10, 20] wOp noCancel w3 w4 :=
    PoolStep.finishItem w3 [WorkerState.ready] [] 1 20 rfl rfl
  have h45 : PoolStep [10, 20] wOp noCancel w4 w5 :=
    PoolStep.exitDone w4 [] [WorkerState.ready] rfl (by decide)
  have h56 : PoolStep [10, 20] wOp noCancel w5 w6 :=
    PoolStep.exitDone w5 [WorkerState.done] [] rfl (by decide)
  exact (((((Relation.ReflTransGen.refl.tail h01).tail h12).tail h23).tail
    h34).tail h45).tail h56

theorem wAllDone : AllDone w6 := by
  unfold AllDone
  decide

theorem vReach :
    Relation.ReflTransGen (PoolStep [5, 6, 7] wOp (cancelAfter 1)) v0 v3 := by
  have h01 : PoolStep [5, 6, 7] wOp (cancelAfter 1) v0 v1 :=
    PoolStep.claimNext v0 [] [] 5 rfl (by decide) rfl rfl
  have h12 : PoolStep [5, 6, 7] wOp (cancelAfter 1) v1 v2 :=
    PoolStep.finishItem v1 [] [] 0 5 rfl rfl
  have h23 : PoolStep [5, 6, 7] wOp (cancelAfter 1) v2 v3 :=
    PoolStep.pollCancel v2 [] [] rfl (by decide) rfl
  exact ((Relation.ReflTransGen.refl.tail h01).tail h12).tail h23

theorem vAllDone : AllDone v3 := by
  unfold AllDone
  decide

/-! ## Claim theorems: the worker pool -/

/-- C1.  Order preservation of `runParallel`: in every state in which all
workers have returned — reached along any interleaving of worker segments,
i.e. regardless of the order in which concurrent operations complete, and
under any cancellation behaviour — the results array holds, at position
`i`, exactly `operation(items[i], i)` for every claimed index `i`, and an
absent (`none`) entry at every index that was never claimed; entries are
never shifted or reordered. -/
theorem runParallel_order_preservation {α β : Type} (items : List α)
    (op : α → Nat → β) (pollRel : PoolState α β → Bool → Prop) (c : Nat)
    (hc : 1 ≤ c) (s : PoolState α β)
    (hreach : Relation.ReflTransGen (PoolStep items op pollRel)
      (initState items c) s)
    (hdone : AllDone s) :
    s.results = (List.range items.length).map (fun i =>
      if i ∈ s.claims.map Prod.snd then (items.get? i).map (fun a => op a i)
      else none) := by
  have hinv := poolInv_reach hreach
  have hrun : runningIdxs s.workers = [] := runningIdxs_of_allDone hdone
  rw [hinv.results_eq]
  apply List.map_congr_left
  intro i _
  refine if_congr ?_ rfl rfl
  rw [hinv.claims_snd, List.mem_range, hrun]
  simp

/-- Witness for C1 at a concrete complete run of two items under
concurrency 2. -/
theorem runParallel_order_preservation_witness :
    w6.results = (List.range ([10, 20] : List Nat).length).map (fun i =>
      if i ∈ w6.claims.map Prod.snd
      then (([10, 20] : List Nat).get? i).map (fun a => wOp a i)
      else none) :=
  runParallel_order_preservation [10, 20] wOp noCancel 2 (by decide) w6
    wReach wAllDone

/-- C2.  No two workers ever claim the same index: in every reachable
state the claim log is exactly `[0, 1, …, cursor-1]` in increasing cursor
order (so every index is claimed at most once, never reassigned and never
reused), every claim invoked the operation with the pair
`(items[i], i)`, and the indices being operated on concurrently are
pairwise distinct. -/
theorem runParallel_unique_claims {α β : Type} (items : List α)
    (op : α → Nat → β) (pollRel : PoolState α β → Bool → Prop) (c : Nat)
    (s : PoolState α β)
    (hreach : Relation.ReflTransGen (PoolStep items op pollRel)
      (initState items c) s) :
    s.claims.map Prod.snd = List.range s.cursor ∧
    (s.claims.map Prod.snd).Nodup ∧
    (∀ p ∈ s.claims, items.get? p.2 = some p.1) ∧
    (runningIdxs s.workers).Nodup := by
  have hinv := poolInv_reach hreach
  refine ⟨hinv.claims_snd, ?_, hinv.claims_fst, hinv.running_nodup⟩
  rw [hinv.claims_snd]
  exact List.nodup_range _

/-- Witness for C2 at the terminal state of the concrete two-item run. -/
theorem runParallel_unique_claims_witness :
    w6.claims.map Prod.snd = List.range w6.cursor ∧
    (w6.claims.map Prod.snd).Nodup ∧
    (∀ p ∈ w6.claims, ([10, 20] : List Nat).get? p.2 = some p.1) ∧
    (runningIdxs w6.workers).Nodup :=
  runParallel_unique_claims [10, 20] wOp noCancel 2 w6 wReach

/-- C3.  Cancellation semantics of `runParallel`: (a) in every reachable
state the `cancelled` flag is set iff some `shouldCancel` poll returned
true at a moment when not every item had been claimed; (b) with
concurrency 1 and the predicate becoming true exactly after `K` items have
been claimed (`K < items.length`), every completed run ends cancelled with
exactly the first `K` results present — operations in flight when the
predicate becomes true still record their result. -/
theorem runParallel_cancellation {α β : Type} (items : List α)
    (op : α → Nat → β) :
    (∀ (pollRel : PoolState α β → Bool → Prop) (c : Nat) (s : PoolState α β),
      Relation.ReflTransGen (PoolStep items op pollRel) (initState items c) s →
      (s.cancelled = true ↔ ∃ p ∈ s.polls, p.2 = true ∧ p.1 < items.length)) ∧
    (∀ (K : Nat) (s : PoolState α β), K < items.length →
      Relation.ReflTransGen (PoolStep items op (cancelAfter K))
        (initState items 1) s →
      AllDone s →
      s.cancelled = true ∧ s.completed = K ∧
      s.results = (List.range items.length).map (fun i =>
        if i < K then (items.get? i).map (fun a => op a i) else none)) := by
  constructor
  · intro pollRel c s hreach
    have hinv := poolInv_reach hreach
    constructor
    · intro hcan
      obtain ⟨p, hp, h2⟩ := hinv.cancelled_iff.mp hcan
      exact ⟨p, hp, h2, hinv.polls_lt p hp⟩
    · rintro ⟨p, hp, h2, _⟩
      exact hinv.cancelled_iff.mpr ⟨p, hp, h2⟩
  · intro K s hK hreach hdone
    have hinv := poolInv_reach hreach
    have hseq := seqInv_reach hK hreach
    rcases hseq with ⟨hws, _, _, _⟩ | ⟨i, hws, _, _, _, _⟩ | ⟨hws, hcK, hcoK, hcan⟩
    · have h := hdone WorkerState.ready (by rw [hws]; simp)
      exact absurd h (by simp)
    · have h := hdone (WorkerState.running i) (by rw [hws]; simp)
      exact absurd h (by simp)
    · refine ⟨hcan, hcoK, ?_⟩
      rw [hinv.results_eq]
      apply List.map_congr_left
      intro j _
      refine if_congr ?_ rfl rfl
      rw [runningIdxs_of_allDone hdone, hcK]
      simp

/-- Witness for C3 at a concrete three-item run with concurrency 1 that is
cancelled after exactly one claim. -/
theorem runParallel_cancellation_witness :
    v3.cancelled = true ∧ v3.completed = 1 ∧
    v3.results = (List.range ([5, 6, 7] : List Nat).length).map (fun i =>
      if i < 1 then (([5, 6, 7] : List Nat).get? i).map (fun a => wOp a i)
      else none) :=
  (runParallel_cancellation [5, 6, 7] wOp).2 1 v3 (by decide) vReach vAllDone

/-- C4.  Progress reporting of `runParallel`: the `finishItem` segment of
the model increments `completed` and then invokes the progress callback
before the worker can reach its next claim; over a whole run the logged
invocations are exactly `(1, total), (2, total), …, (K, total)` with
`total = items.length` — one per claimed item, monotonically increasing,
never skipping or repeating — in every terminal state the number of
invocations equals the number of claims, and when the run was not
cancelled the final invocation reports `completed = total`. -/
theorem runParallel_progress_reporting {α β : Type} (items : List α)
    (op : α → Nat → β) (pollRel : PoolState α β → Bool → Prop) (c : Nat)
    (hc : 1 ≤ c) (s : PoolState α β)
    (hreach : Relation.ReflTransGen (PoolStep items op pollRel)
      (initState items c) s)
    (hdone : AllDone s) :
    s.progressLog = (List.range s.completed).map (fun j => (j + 1, items.length)) ∧
    s.completed = s.cursor ∧
    s.progressLog.length = s.claims.length ∧
    (s.cancelled = false → s.completed = items.length) := by
  have hinv := poolInv_reach hreach
  have hrun := runningIdxs_of_allDone hdone
  have hcomp : s.completed = s.cursor := by
    have h := hinv.completed_eq
    rw [hrun] at h
    simpa using h
  have hclaims : s.claims.length = s.cursor := by
    have h := congrArg List.length hinv.claims_snd
    simpa using h
  refine ⟨hinv.progress_eq, hcomp, ?_, ?_⟩
  · rw [hinv.progress_eq]
    simp [hclaims, hcomp]
  · intro hcan
    rcases Nat.eq_zero_or_pos items.length with h0 | hpos
    · have := hinv.cursor_le
      omega
    · have hlen := hinv.workers_len
      have hne : s.workers ≠ [] := by
        intro hnil
        rw [hnil] at hlen
        simp at hlen
        omega
      obtain ⟨w, hw⟩ := List.exists_mem_of_ne_nil s.workers hne
      have hwdone := hdone w hw
      rw [hwdone] at hw
      rcases hinv.done_reason hw with h | h
      · rw [hcan] at h
        exact absurd h (by simp)
      · have := hinv.cursor_le
        omega

/-- Witness for C4 at the terminal state of the concrete two-item run. -/
theorem runParallel_progress_reporting_witness :
    w6.progressLog =
      (List.range w6.completed).map (fun j => (j + 1, ([10, 20] : List Nat).length)) ∧
    w6.completed = w6.cursor ∧
    w6.progressLog.length = w6.claims.length ∧
    (w6.cancelled = false → w6.completed = ([10, 20] : List Nat).length) :=
  runParallel_progress_reporting [10, 20] wOp noCancel 2 (by decide) w6
    wReach wAllDone

/-! ## Claim theorems: prober and drivers -/

/-- C5.  Porcelain outcome classification: on any status line of length
≥ 2 (taken as its first two columns `c0`, `c1` and a remainder, with
leading spaces significant because no trimming happens before indexing),
one parsing step increments `staged` iff `c0` is neither blank nor `?`,
`modified` iff `c1 = M`, `deleted` iff `c1 = D`, and `untracked` iff
`c0 = ?`; the claim's three concrete examples behave as stated, and
concrete lines shorter than two characters are ignored. -/
theorem porcelain_classification :
    (∀ (c : ChangeCounts) (c0 c1 : Char) (rest : List Char),
      porcelainStep c (c0 :: c1 :: rest) =
        { modified := c.modified + (if c1 = 'M' then 1 else 0),
          staged := c.staged + (if c0 ≠ ' ' ∧ c0 ≠ '?' then 1 else 0),
          untracked := c.untracked + (if c0 = '?' then 1 else 0),
          deleted := c.deleted + (if c1 = 'D' then 1 else 0) }) ∧
    parsePorcelain " M file.txt" = ⟨1, 0, 0, 0⟩ ∧
    parsePorcelain "M  file.txt" = ⟨0, 1, 0, 0⟩ ∧
    parsePorcelain "?? file.txt" = ⟨0, 0, 1, 0⟩ ∧
    parsePorcelain "M" = ⟨0, 0, 0, 0⟩ ∧
    parsePorcelain "\n M a\nX\n" = ⟨1, 0, 0, 0⟩ := by
  refine ⟨?_, by decide, by decide, by decide, by decide, by decide⟩
  intro c c0 c1 rest
  simp only [porcelainStep]
  by_cases h0 : c0 ≠ ' ' ∧ c0 ≠ '?'
  · have h0q : ¬c0 = '?' := h0.2
    by_cases h1 : c1 = 'M'
    · have h1d : ¬c1 = 'D' := by rw [h1]; decide
      simp [h0, h1, h0q, h1d]
    · by_cases h2 : c1 = 'D'
      · simp [h0, h1, h2, h0q]
      · simp [h0, h1, h2, h0q]
  · by_cases h0q : c0 = '?'
    · by_cases h1 : c1 = 'M'
      · have h1d : ¬c1 = 'D' := by rw [h1]; decide
        simp [h0, h1, h0q, h1d]
      · by_cases h2 : c1 = 'D'
        · simp [h0, h1, h2, h0q]
        · simp [h0, h1, h2, h0q]
    · have hsp : c0 = ' ' := by
        rcases not_and_or.mp h0 with h | h
        · exact not_not.mp h
        · exact absurd (not_not.mp h) h0q
      by_cases h1 : c1 = 'M'
      · have h1d : ¬c1 = 'D' := by rw [h1]; decide
        simp [h0, h1, h0q, h1d, hsp]
      · by_cases h2 : c1 = 'D'
        · simp [h0, h1, h2, h0q, hsp]
        · simp [h0, h1, h2, h0q, hsp]

/-- C6.  Upstream resolution in `getRepoStatus`: a thrown or non-zero
upstream-ref query yields `hasUpstream = false` and zero counts without
erroring (the probe still returns a status); when the upstream resolves,
`behind` is parsed from the `HEAD..upstream` count query (commits reachable
from the upstream but not from HEAD) and `ahead` from the `upstream..HEAD`
count query (commits reachable from HEAD but not from the upstream), each
count query degrading to 0 when it throws (a thrown first query aborts the
block, so it also leaves `ahead` at 0). -/
theorem upstream_sync_fields (env : GitEnv) (path : String) :
    (env.upstreamQuery = none →
      (getRepoStatus env path).hasUpstream = false ∧
      (getRepoStatus env path).ahead = 0 ∧ (getRepoStatus env path).behind = 0) ∧
    (∀ ec out, env.upstreamQuery = some (ec, out) → ec ≠ 0 →
      (getRepoStatus env path).hasUpstream = false ∧
      (getRepoStatus env path).ahead = 0 ∧ (getRepoStatus env path).behind = 0) ∧
    (∀ out, env.upstreamQuery = some (0, out) → env.countHeadToUpstream = none →
      (getRepoStatus env path).hasUpstream = true ∧
      (getRepoStatus env path).ahead = 0 ∧ (getRepoStatus env path).behind = 0) ∧
    (∀ out t1, env.upstreamQuery = some (0, out) →
      env.countHeadToUpstream = some t1 → env.countUpstreamToHead = none →
      (getRepoStatus env path).hasUpstream = true ∧
      (getRepoStatus env path).ahead = 0 ∧
      (getRepoStatus env path).behind = parseIntOrZero (jsTrim t1)) ∧
    (∀ out t1 t2, env.upstreamQuery = some (0, out) →
      env.countHeadToUpstream = some t1 → env.countUpstreamToHead = some t2 →
      (getRepoStatus env path).hasUpstream = true ∧
      (getRepoStatus env path).ahead = parseIntOrZero (jsTrim t2) ∧
      (getRepoStatus env path).behind = parseIntOrZero (jsTrim t1)) := by
  refine ⟨?_, ?_, ?_, ?_, ?_⟩
  · intro h
    simp [getRepoStatus, upstreamSync, h]
  · intro ec out h hec
    simp [getRepoStatus, upstreamSync, h, hec]
  · intro out h h1
    simp [getRepoStatus, upstreamSync, h, h1]
  · intro out t1 h h1 h2
    simp [getRepoStatus, upstreamSync, h, h1, h2]
  · intro out t1 t2 h h1 h2
    simp [getRepoStatus, upstreamSync, h, h1, h2]

/-- Witness for C6: a clean repository whose upstream is one commit ahead
yields `hasUpstream = true`, `ahead = 0`, `behind = 1`. -/
theorem upstream_sync_fields_witness :
    (getRepoStatus envBehindOne "/tmp/api").hasUpstream = true ∧
    (getRepoStatus envBehindOne "/tmp/api").ahead = parseIntOrZero (jsTrim "0\n") ∧
    (getRepoStatus envBehindOne "/tmp/api").behind = parseIntOrZero (jsTrim "1\n") :=
  (upstream_sync_fields envBehindOne "/tmp/api").2.2.2.2 "origin/main\n" "1\n" "0\n"
    rfl rfl rfl

/-- Counterexample to C7 as stated.  A repository whose probed status shows
uncommitted changes — a worktree-deleted tracked file, `deleted = 1`,
`isClean = false` — and which has an upstream is *not* skipped by
`pullRepo`: the pull subprocess is invoked (second component `true`) and
the run reports `up-to-date`, because the driver only tests
`modified > 0 || staged > 0`. -/
theorem pull_skip_counterexample :
    (getRepoStatus envDeletedOnly "/tmp/api").deleted = 1 ∧
    (getRepoStatus envDeletedOnly "/tmp/api").modified = 0 ∧
    (getRepoStatus envDeletedOnly "/tmp/api").staged = 0 ∧
    (getRepoStatus envDeletedOnly "/tmp/api").isClean = false ∧
    (getRepoStatus envDeletedOnly "/tmp/api").hasUpstream = true ∧
    (pullRepo envDeletedOnly (ShellOutcome.exited 0 "Already up to date.\n" "")
      "/tmp/api").2 = true ∧
    (pullRepo envDeletedOnly (ShellOutcome.exited 0 "Already up to date.\n" "")
      "/tmp/api").1.message = "up-to-date" := by
  decide

/-- C7 as amended: `pullRepo` short-circuits to a failed `skipped` outcome
with a human-readable reason, without launching the pull subprocess,
exactly when the probed status shows *modified or staged* changes, or no
upstream; worktree-deleted-only or untracked-only changes do not trigger
the skip (see the counterexample). -/
theorem pull_skip_preconditions (env : GitEnv) (pullExec : ShellOutcome)
    (path : String) :
    ((getRepoStatus env path).modified > 0 ∨ (getRepoStatus env path).staged > 0 →
      pullRepo env pullExec path =
        ({ name := lastSegment path, success := false, message := "skipped",
           error := some "Has uncommitted changes" }, false)) ∧
    ((getRepoStatus env path).modified = 0 → (getRepoStatus env path).staged = 0 →
      (getRepoStatus env path).hasUpstream = false →
      pullRepo env pullExec path =
        ({ name := lastSegment path, success := false, message := "skipped",
           error := some "No upstream configured" }, false)) := by
  constructor
  · intro h
    simp only [pullRepo]
    rw [if_pos h]
  · intro h1 h2 h3
    simp only [pullRepo]
    rw [if_neg (by omega), if_pos h3]

/-- Witness for C7 (amended) at a repository with one modified file. -/
theorem pull_skip_preconditions_witness :
    pullRepo envDirtyDetached (ShellOutcome.exited 0 "" "") "/tmp/work" =
      ({ name := lastSegment "/tmp/work", success := false, message := "skipped",
         error := some "Has uncommitted changes" }, false) :=
  (pull_skip_preconditions envDirtyDetached (ShellOutcome.exited 0 "" "")
    "/tmp/work").1 (Or.inl (by decide))

/-- Counterexample to C8 as stated.  A fetch whose subprocess exits
non-zero with the network-failure diagnostic `"fatal: Could not resolve
host: github.com"` on stderr (a text matching the fixed connection
substrings) yields kind `error` whose error text is the *raw* diagnostic,
not the generic connection message: only thrown errors reach the
connection classifier, while stderr of a non-throwing failed subprocess is
passed through unclassified. -/
theorem network_error_counterexample :
    isConnectionMsg "fatal: Could not resolve host: github.com" = true ∧
    (fetchRepo (ShellOutcome.exited 128 "" "fatal: Could not resolve host: github.com")
      "/tmp/api").message = "error" ∧
    (fetchRepo (ShellOutcome.exited 128 "" "fatal: Could not resolve host: github.com")
      "/tmp/api").error = some "fatal: Could not resolve host: github.com" ∧
    (fetchRepo (ShellOutcome.exited 128 "" "fatal: Could not resolve host: github.com")
      "/tmp/api").error ≠ some "Fetch failed: connection error" := by
  decide

/-- C8 as amended: the connection classification applies to *thrown*
errors only (and only when the text is not first classified as a timeout):
for pull (once its preconditions pass), clone and fetch, a thrown error
whose text matches one of the fixed network-failure substrings yields kind
`error` with the generic connection message for that operation, the raw
transport diagnostic being suppressed; stderr of a non-zero-exit
subprocess is instead returned raw (see the counterexample). -/
theorem network_error_classified :
    (∀ (env : GitEnv) (msg path : String),
      (getRepoStatus env path).modified = 0 → (getRepoStatus env path).staged = 0 →
      (getRepoStatus env path).hasUpstream = true →
      isTimeoutMsg msg false = false → isConnectionMsg msg = true →
      (pullRepo env (ShellOutcome.threw msg false) path).1 =
        { name := lastSegment path, success := false, message := "error",
          error := some "Pull failed: connection error" }) ∧
    (∀ (msg tgt : String) (sh : Bool),
      isTimeoutMsg msg false = false → isConnectionMsg msg = true →
      cloneRepo (ShellOutcome.threw msg false) tgt sh =
        { name := lastSegment tgt, success := false, message := "error",
          error := some "Clone failed: connection error" }) ∧
    (∀ (msg path : String),
      isTimeoutMsg msg false = false → isConnectionMsg msg = true →
      fetchRepo (ShellOutcome.threw msg false) path =
        { name := lastSegment path, success := false, message := "error",
          error := some "Fetch failed: connection error" }) := by
  refine ⟨?_, ?_, ?_⟩
  · intro env msg path h1 h2 h3 ht hc
    simp only [pullRepo]
    rw [if_neg (by omega), if_neg (by simp [h3])]
    simp [formatNetworkError, ht, hc]
  · intro msg tgt sh ht hc
    simp [cloneRepo, formatNetworkError, ht, hc]
  · intro msg path ht hc
    simp [fetchRepo, formatNetworkError, ht, hc]

/-- Witness for C8 (amended) at a thrown `"connection refused"` error. -/
theorem network_error_classified_witness :
    fetchRepo (ShellOutcome.threw "connection refused" false) "/tmp/api" =
      { name := lastSegment "/tmp/api", success := false, message := "error",
        error := some "Fetch failed: connection error" } :=
  network_error_classified.2.2 "connection refused" "/tmp/api" (by decide) (by decide)

/-- C9.  Every outcome produced by the five drivers satisfies the
data-model invariant: `success = false` whenever the kind is one of the
non-terminal-success states `skipped`, `not found`, `exists`, `error`, and
the `error` field is populated only when `success = false` — over all
possible subprocess outcomes, probed statuses and flags. -/
theorem drivers_outcome_invariant :
    (∀ (env : GitEnv) (p : ShellOutcome) (path : String),
      outcomeOk (pullRepo env p path).1) ∧
    (∀ (env : GitEnv) (r c : ShellOutcome) (iu : Bool) (path : String),
      outcomeOk (cleanRepo env r c iu path)) ∧
    (∀ (o : ShellOutcome) (tgt : String) (sh : Bool),
      outcomeOk (cloneRepo o tgt sh)) ∧
    (∀ (o : ShellOutcome) (path : String), outcomeOk (fetchRepo o path)) ∧
    (∀ (o : ShellOutcome) (path br : String) (cr : Bool),
      outcomeOk (checkoutBranch o path br cr)) := by
  refine ⟨?_, ?_, ?_, ?_, ?_⟩
  · intro env p path
    cases p with
    | exited code stdout stderr =>
      simp only [pullRepo]
      split_ifs <;> simp_all [outcomeOk]
    | threw msg gto =>
      simp only [pullRepo]
      split_ifs <;> simp_all [outcomeOk]
  · intro env r c iu path
    have hfin : ∀ (nm : String) (a b : Nat), outcomeOk (cleanRepoFinish nm a b) := by
      intro nm a b
      simp only [cleanRepoFinish]
      split_ifs <;> simp [outcomeOk]
    have hph2 : ∀ (nm : String) (st : RepoStatus) (fr : Nat),
        outcomeOk (cleanRepoUntrackedPhase nm st c iu fr) := by
      intro nm st fr
      simp only [cleanRepoUntrackedPhase]
      split_ifs with h1
      · cases c with
        | exited code stdout stderr =>
          dsimp only
          split_ifs <;> first | apply hfin | simp [outcomeOk]
        | threw msg gto => simp [outcomeOk]
      · apply hfin
    simp only [cleanRepo]
    split_ifs with h1
    · cases r with
      | exited code stdout stderr =>
        dsimp only
        split_ifs <;> first | apply hph2 | simp [outcomeOk]
      | threw msg gto => simp [outcomeOk]
    · apply hph2
  · intro o tgt sh
    cases o with
    | exited code stdout stderr =>
      simp only [cloneRepo]
      split_ifs <;> simp [outcomeOk]
    | threw msg gto => simp [cloneRepo, outcomeOk]
  · intro o path
    cases o with
    | exited code stdout stderr =>
      simp only [fetchRepo]
      split_ifs <;> simp [outcomeOk]
    | threw msg gto => simp [fetchRepo, outcomeOk]
  · intro o path br cr
    cases o with
    | exited code stdout stderr =>
      simp only [checkoutBranch]
      split_ifs <;> cases cr <;> simp [outcomeOk]
    | threw msg gto => simp [checkoutBranch, outcomeOk]

/-- Witness for C9: a failed fetch outcome has kind `error`, hence
`success = false`. -/
theorem drivers_outcome_invariant_witness :
    (fetchRepo (ShellOutcome.exited 1 "" "boom") "/tmp/api").success = false :=
  (drivers_outcome_invariant.2.2.2.1 (ShellOutcome.exited 1 "" "boom")
    "/tmp/api").1 (Or.inr (Or.inr (Or.inr (by decide))))

/-- Counterexample to C10 as stated.  A path on which the branch query
returns empty output (a detached-HEAD repository) but whose worktree is
dirty: `getRepoStatus` reports `branch = "detached"` yet `modified = 1`
and `isClean = false`, so the claimed all-zero, clean status does not hold
for every path with a failing/empty branch query. -/
theorem probe_degradation_counterexample :
    (getRepoStatus envDirtyDetached "/tmp/work").branch = "detached" ∧
    (getRepoStatus envDirtyDetached "/tmp/work").modified = 1 ∧
    (getRepoStatus envDirtyDetached "/tmp/work").isClean = false := by
  decide

/-- C10 as amended: on a path where *every* git query fails — the branch
query throws or prints nothing, and the porcelain and upstream queries
throw, as on a non-repository or unreadable path — `getRepoStatus` still
returns a status rather than erroring: `branch = "detached"`, all change
and sync counters zero, `hasUpstream = false`, `isClean = true`; such a
path is indistinguishable from a clean detached-HEAD repository. -/
theorem probe_degradation (env : GitEnv) (path : String)
    (hb : env.branchQuery = none ∨ ∃ o, env.branchQuery = some o ∧ jsTrim o = "")
    (hs : env.statusQuery = none) (hu : env.upstreamQuery = none) :
    getRepoStatus env path =
      { name := lastSegment path, path := path, branch := "detached",
        modified := 0, staged := 0, untracked := 0, deleted := 0,
        ahead := 0, behind := 0, isClean := true, hasUpstream := false } := by
  rcases hb with hb | ⟨o, hb, ho⟩
  · simp [getRepoStatus, getCurrentBranch, upstreamSync, hb, hs, hu]
  · simp [getRepoStatus, getCurrentBranch, upstreamSync, hb, hs, hu, ho]

/-- Witness for C10 (amended) at the all-queries-fail environment. -/
theorem probe_degradation_witness :
    getRepoStatus envNoRepo "/no/such/repo" =
      { name := lastSegment "/no/such/repo", path := "/no/such/repo",
        branch := "detached", modified := 0, staged := 0, untracked := 0,
        deleted := 0, ahead := 0, behind := 0, isClean := true,
        hasUpstream := false } :=
  probe_degradation envNoRepo "/no/such/repo" (Or.inl rfl) rfl rfl
